import Mathlib

/-!
Verification of the İZKO price-watch script (`scrape_and_notify.py`).

Python `str` values are modelled as `List Char`; Python `Decimal` values are
modelled as `ℚ` (the script only ever produces finite decimals from numeric
captures; the `Infinity`/`NaN` literals accepted by the `Decimal` constructor
are not reachable from any call site, whose inputs match `[0-9.,\s]` classes,
and are not modelled).  External collaborators (HTTP fetch, Telegram delivery,
the JSON state file, the wall clock) are modelled as parameters; the
BeautifulSoup HTML parser is modelled by an explicit document tree (`Node`)
for the two DOM strategies and by a plain tag-stripper for `get_text` on raw
windows.
-/

abbrev Str := List Char

/-- Decimal digit test, `[0-9]` in the script's regexes. -/
def isDig (c : Char) : Bool := 48 ≤ c.toNat && c.toNat ≤ 57

/-- Model of Python whitespace (`str.strip`, regex `\s`): ASCII whitespace
plus the separators and NBSP; rarer Unicode space characters are not
modelled (no claim touches them). -/
def isPyWhite (c : Char) : Bool :=
  c.toNat == 32 || c.toNat == 9 || c.toNat == 10 || c.toNat == 13 ||
  c.toNat == 11 || c.toNat == 12 || c.toNat == 28 || c.toNat == 29 ||
  c.toNat == 30 || c.toNat == 31 || c.toNat == 133 || c.toNat == 160

/-- Case folding used for the script's `re.IGNORECASE` matches: ASCII
lowercasing plus the Turkish dotted/dotless i equivalences of CPython's
`sre` (`İ`, `I`, `ı`, `i` all fold to `i`). -/
def foldChar (c : Char) : Char :=
  if 65 ≤ c.toNat ∧ c.toNat ≤ 90 then Char.ofNat (c.toNat + 32)
  else if c = 'İ' ∨ c = 'ı' then 'i'
  else c

/-- Model of Python `str.upper` on the characters that occur in headers:
ASCII uppercasing plus `ı → I` (`İ` is left unchanged, as its Python
uppercase is itself). -/
def pyUpperChar (c : Char) : Char :=
  if 97 ≤ c.toNat ∧ c.toNat ≤ 122 then Char.ofNat (c.toNat - 32)
  else if c = 'ı' then 'I'
  else c

/-- `str.strip()`: drop leading and trailing whitespace. -/
def pyStrip (s : Str) : Str :=
  ((s.dropWhile isPyWhite).reverse.dropWhile isPyWhite).reverse

/-- Does the folded text start with the (already lower-case) pattern? -/
def foldStartsWith : Str → Str → Bool
  | [], _ => true
  | _ :: _, [] => false
  | p :: ps, c :: cs => (foldChar c == p) && foldStartsWith ps cs

/-- Case-insensitive containment, the semantics of
`re.search(literal, s, re.IGNORECASE) is not None`. -/
def foldContains (pat : Str) : Str → Bool
  | [] => pat.isEmpty
  | c :: rest => foldStartsWith pat (c :: rest) || foldContains pat rest

/-- Run length of a character class at the head of the text. -/
def runLen (p : Char → Bool) (cs : Str) : ℕ := (cs.takeWhile p).length

/-- Case-sensitive containment of `pat` in the text (Python `in`). -/
def listContainsSeg (pat : Str) : Str → Bool
  | [] => pat.isEmpty
  | c :: rest => pat.isPrefixOf (c :: rest) || listContainsSeg pat rest

/-- `n, n-1, ..., 0`: the order in which a greedy `*` hands back characters. -/
def descRange (n : ℕ) : List ℕ := (List.range (n + 1)).reverse

/-! ## Number Normalizer (`_turkish_number_to_decimal`) and the `Decimal` model -/

/-- Value of a digit string, most significant first. -/
def digitsToNat (ds : Str) : ℕ := ds.foldl (fun a c => 10 * a + (c.toNat - 48)) 0

/-- Exact value of a parsed decimal: sign, digit string, number of fractional
digits, exponent.  Values are built with `mkRat` over integer arithmetic. -/
def mkDecValue (neg : Bool) (ds : Str) (scale : ℕ) (e : ℤ) : ℚ :=
  let m : ℤ := if neg then -(digitsToNat ds : ℤ) else (digitsToNat ds : ℤ)
  let k : ℤ := e - (scale : ℤ)
  if 0 ≤ k then mkRat (m * (((10 : ℕ) ^ k.toNat : ℕ) : ℤ)) 1
  else mkRat m ((10 : ℕ) ^ (-k).toNat)

/-- Exponent digits after an optional sign; must consume the whole rest. -/
def parseExpDigits (r : Str) : Option ℤ :=
  if r ≠ [] ∧ r.all isDig then some ((digitsToNat r : ℕ) : ℤ) else none

/-- Signed exponent after `e`/`E`. -/
def parseSignedExp : Str → Option ℤ
  | '+' :: r => parseExpDigits r
  | '-' :: r => (parseExpDigits r).map (fun e => -e)
  | r => parseExpDigits r

/-- Optional exponent part: empty, or `e`/`E` followed by a signed integer. -/
def parseExpPart : Str → Option ℤ
  | [] => some (0 : ℤ)
  | 'e' :: r => parseSignedExp r
  | 'E' :: r => parseSignedExp r
  | _ => none

/-- Mantissa and exponent of a decimal numeric string (after the sign):
`digits+ ('.' digits*)? | '.' digits+`, then an optional exponent. -/
def parseUnsignedDec (neg : Bool) (cs : Str) : Option ℚ :=
  let ip := cs.takeWhile isDig
  let r1 := cs.dropWhile isDig
  match r1 with
  | '.' :: r2 =>
    let fp := r2.takeWhile isDig
    let r3 := r2.dropWhile isDig
    if ip.isEmpty && fp.isEmpty then none
    else (parseExpPart r3).map (mkDecValue neg (ip ++ fp) fp.length)
  | _ => if ip.isEmpty then none else (parseExpPart r1).map (mkDecValue neg ip 0)

/-- Model of the Python `Decimal` constructor on strings: surrounding
whitespace is ignored, then a signed decimal numeric string is parsed
exactly; anything else is `InvalidOperation`, modelled as `none`.  (The
`Infinity`/`NaN` literals the constructor also accepts are unreachable from
this program's call sites and are not modelled.) -/
def pyDecimal (cs : Str) : Option ℚ :=
  match pyStrip cs with
  | '+' :: r => parseUnsignedDec false r
  | '-' :: r => parseUnsignedDec true r
  | r => parseUnsignedDec false r

/-- `_turkish_number_to_decimal`: strip, NBSP→space, drop spaces, drop `.`
thousands separators, `,`→`.`, then parse as a `Decimal`. -/
def turkish_number_to_decimal (numText : Str) : Option ℚ :=
  let cleaned := pyStrip numText
  let cleaned := (cleaned.map (fun c => if c = Char.ofNat 160 then ' ' else c)).filter (fun c => c != ' ')
  let cleaned := (cleaned.filter (fun c => c != '.')).map (fun c => if c = ',' then '.' else c)
  pyDecimal cleaned

/-- Spec-side cleaning, step 1: strip leading/trailing whitespace. -/
def cleanSpecStep1 (s : Str) : Str := pyStrip s

/-- Spec-side cleaning, step 2: convert non-breaking spaces to spaces. -/
def cleanSpecStep2 (s : Str) : Str := s.map (fun c => if c = Char.ofNat 160 then ' ' else c)

/-- Spec-side cleaning, step 3: remove all spaces. -/
def cleanSpecStep3 (s : Str) : Str := s.filter (fun c => c != ' ')

/-- Spec-side cleaning, step 4: remove all `.` characters. -/
def cleanSpecStep4 (s : Str) : Str := s.filter (fun c => c != '.')

/-- Spec-side cleaning, step 5: convert the remaining `,` to a decimal point. -/
def cleanSpecStep5 (s : Str) : Str := s.map (fun c => if c = ',' then '.' else c)

/-- The spec's cleaning pipeline, steps applied in the stated order. -/
def cleanSpec (s : Str) : Str :=
  cleanSpecStep5 (cleanSpecStep4 (cleanSpecStep3 (cleanSpecStep2 (cleanSpecStep1 s))))

/-! ## Rounding, formatting, change detection (`main`, lines 305-343) -/

/-- `Decimal.quantize(Decimal("1"))` with the default ROUND_HALF_EVEN
context: round to the nearest integer, ties to the even integer. -/
def roundHalfEven (q : ℚ) : ℤ :=
  let f := Int.floor q
  let r := q.num - f * (q.den : ℤ)
  if 2 * r < (q.den : ℤ) then f
  else if (q.den : ℤ) < 2 * r then f + 1
  else if f % 2 = 0 then f else f + 1

/-- Decimal digit string of a natural number (fuelled division loop). -/
def natDigitsGo : ℕ → ℕ → Str → Str
  | 0, _, acc => acc
  | fuel + 1, n, acc =>
    if n < 10 then Char.ofNat (48 + n) :: acc
    else natDigitsGo fuel (n / 10) (Char.ofNat (48 + n % 10) :: acc)

/-- Decimal digit string of a natural number. -/
def natDigits (n : ℕ) : Str := natDigitsGo (n + 1) n []

/-- Split into chunks of three characters. -/
def chunk3 : Str → List Str
  | [] => []
  | [a] => [[a]]
  | [a, b] => [[a, b]]
  | a :: b :: c :: rest => [a, b, c] :: chunk3 rest

/-- Group a digit string in threes from the right, separated by `.`
(the semantics of Python `f-string` `:,` followed by `replace(",", ".")`). -/
def group3 (ds : Str) : Str :=
  (List.intercalate ['.'] (chunk3 ds.reverse)).reverse

/-- Thousands-separated rendering of an integer. -/
def intToGrouped (n : ℤ) : Str :=
  if n < 0 then '-' :: group3 (natDigits n.natAbs) else group3 (natDigits n.toNat)

/-- `_format_tl`: quantize to an integer (half-even) and render with `.`
as the thousands separator. -/
def format_tl (q : ℚ) : Str := intToGrouped (roundHalfEven q)

/-- `build_message`: the fixed notification template, parameterized by the
timestamp strings the script obtains from the wall clock. -/
def build_message (oldPrice newPrice : ℚ) (dt off : Str) : Str :=
  "İZKO Cumhuriyet Altını fiyatı değişti!\nEski: ".toList ++ format_tl oldPrice ++
  " TL\nYeni: ".toList ++ format_tl newPrice ++
  " TL\nKaynak: izko.org.tr\nZaman: ".toList ++ dt ++ " (".toList ++ off ++ ")".toList

/-- Observable outcome of one run: the notification texts handed to the
notifier, the value written to the state file (if any), and the exit code. -/
structure RunResult where
  notifs : List Str
  write : Option ℚ
  exitCode : ℕ
deriving DecidableEq

/-- `main` lines 331-343 on the already-quantized price `p`: baseline /
changed / unchanged.  `save_last_price` stores
`int(price.quantize(Decimal("1")))`, modelled by a further `roundHalfEven`. -/
def changeDetectRounded (p : ℚ) (lastQ : Option ℚ) (dt off : Str) : RunResult :=
  match lastQ with
  | none => { notifs := [], write := some ((roundHalfEven p : ℤ) : ℚ), exitCode := 0 }
  | some l =>
    if p ≠ l then
      { notifs := [build_message l p dt off], write := some ((roundHalfEven p : ℤ) : ℚ), exitCode := 0 }
    else
      { notifs := [], write := none, exitCode := 0 }

/-- `main` lines 330-343: quantize the price (line 330), then compare with
the loaded previous value. -/
def changeDetect (price : ℚ) (lastQ : Option ℚ) (dt off : Str) : RunResult :=
  changeDetectRounded ((roundHalfEven price : ℤ) : ℚ) lastQ dt off

/-- `main` lines 311-324: the strategy chain, given each strategy's result
on the fetched content. -/
def extract_price (t b rx nb : Option ℚ) : Option ℚ :=
  match t with
  | some v => some v
  | none =>
    match b with
    | some v => some v
    | none =>
      match rx with
      | some v => some v
      | none => nb

/-- The four strategies, in the order `main` tries them. -/
inductive Strat where
  | table
  | bs4
  | regex
  | neighborhood
deriving DecidableEq

/-- The strategy chain instrumented with the list of strategies invoked. -/
def extract_trace (t b rx nb : Option ℚ) : Option ℚ × List Strat :=
  match t with
  | some v => (some v, [Strat.table])
  | none =>
    match b with
    | some v => (some v, [Strat.table, Strat.bs4])
    | none =>
      match rx with
      | some v => (some v, [Strat.table, Strat.bs4, Strat.regex])
      | none => (nb, [Strat.table, Strat.bs4, Strat.regex, Strat.neighborhood])

/-- `main` lines 305-343: fetch outcome, extraction chain, change detection.
A failed fetch and a failed extraction both end the run with exit code 0,
no write and no notification. -/
def mainModel (fetched : Bool) (t b rx nb : Option ℚ) (lastQ : Option ℚ) (dt off : Str) : RunResult :=
  if fetched then
    match extract_price t b rx nb with
    | none => { notifs := [], write := none, exitCode := 0 }
    | some p => changeDetect p lastQ dt off
  else { notifs := [], write := none, exitCode := 0 }

/-! ## Regex-Window strategy (`parse_price_with_regex`, `FALLBACK_REGEX`) -/

/-- The capture class `[0-9\.\,\s]`. -/
def isNumCls (c : Char) : Bool := isDig c || c == '.' || c == ',' || isPyWhite c

/-- The class `[\s:]` between the column marker and the capture. -/
def isColonSpace (c : Char) : Bool := isPyWhite c || c == ':'

/-- Does `YEN[İI]` match (case-insensitively) at the head of the text? -/
def yeniAt (cs : Str) : Bool := foldStartsWith "yeni".toList cs

/-- Does `Cumhuriyet` match (case-insensitively) at the head of the text? -/
def cumhuriyetAt (cs : Str) : Bool := foldStartsWith "cumhuriyet".toList cs

/-- Backtracking for `[\s:]*([0-9\.\,\s]+)`: the greedy star first consumes
`j` characters (largest first) and the capture then takes the maximal
nonempty run of the capture class. -/
def backtrackCapture (cs : Str) : ℕ → Option Str
  | 0 =>
    match cs with
    | c :: rest => if isNumCls c then some (c :: rest.takeWhile isNumCls) else none
    | [] => none
  | j + 1 =>
    match cs.drop (j + 1) with
    | c :: rest => if isNumCls c then some (c :: rest.takeWhile isNumCls) else backtrackCapture cs j
    | [] => backtrackCapture cs j

/-- Match `[\s:]*([0-9\.\,\s]+)` at the head of the text, returning the
captured group. -/
def capturePart (cs : Str) : Option Str := backtrackCapture cs (runLen isColonSpace cs)

/-- The non-greedy window `[\s\S]{0,4000}?` followed by `YEN[İI][\s:]*(...)`:
try the shortest gap first, growing it while the tail fails. -/
def fallbackGap : Str → ℕ → Option Str
  | cs, 0 => if yeniAt cs then capturePart (cs.drop 4) else none
  | cs, fuel + 1 =>
    match (if yeniAt cs then capturePart (cs.drop 4) else none) with
    | some cap => some cap
    | none =>
      match cs with
      | [] => none
      | _ :: rest => fallbackGap rest fuel

/-- `re.search` semantics: try a full match at each position, leftmost
start first. -/
def scanSuffixes {α : Type} (f : Str → Option α) : Str → Option α
  | [] => f []
  | c :: rest =>
    match f (c :: rest) with
    | some r => some r
    | none => scanSuffixes f rest

/-- `FALLBACK_REGEX.search(html)`: the captured group of the first match of
`Cumhuriyet[\s\S]{0,4000}?YEN[İI][\s:]*([0-9\.\,\s]+)`, case-insensitive. -/
def fallbackSearch (html : Str) : Option Str :=
  scanSuffixes (fun cs => if cumhuriyetAt cs then fallbackGap (cs.drop 10) 4000 else none) html

/-- `parse_price_with_regex`: normalize the first match's capture; `None`
when the pattern does not match, or when the capture fails to normalize. -/
def parse_price_with_regex (html : Str) : Option ℚ :=
  match fallbackSearch html with
  | none => none
  | some g => turkish_number_to_decimal g

/-! ## Neighborhood-Scan strategy (`parse_price_neighborhood`) -/

/-- Tag-stripping state machine behind `getText`: collect the text runs
outside `<...>` tags. -/
def textSegsGo : Bool → Str → Str → List Str
  | false, [], acc => [acc.reverse]
  | true, [], _ => []
  | false, c :: r, acc =>
    if c = '<' then acc.reverse :: textSegsGo true r [] else textSegsGo false r (c :: acc)
  | true, c :: r, acc =>
    if c = '>' then textSegsGo false r acc else textSegsGo true r acc

/-- Model of `BeautifulSoup(x, "html.parser").get_text(" ", strip=True)` on a
raw fragment: the text runs outside tags, each stripped, empties dropped,
joined by single spaces.  (Entity decoding is not modelled; the theorems
evaluate it only on markup-free or simple well-formed fragments.) -/
def getText (cs : Str) : Str :=
  List.intercalate [' '] (((textSegsGo false cs []).map pyStrip).filter (fun s => s != []))

/-- Backtracking for `YEN[İI]\s*[:\-]?\s*([0-9\.\,\s]{3,})` after the marker:
greedy `\s*`, optional `:`/`-`, greedy `\s*`, then a capture of at least
three characters, explored in the order the regex engine backtracks. -/
def m2After (cs : Str) : Option Str :=
  (descRange (runLen isPyWhite cs)).findSome? (fun a =>
    let cs1 := cs.drop a
    let bOpts : List ℕ :=
      match cs1 with
      | c :: _ => if c = ':' ∨ c = '-' then [1, 0] else [0]
      | [] => [0]
    bOpts.findSome? (fun b =>
      let cs2 := cs1.drop b
      (descRange (runLen isPyWhite cs2)).findSome? (fun c3 =>
        let cs3 := cs2.drop c3
        if 3 ≤ runLen isNumCls cs3 then some (cs3.takeWhile isNumCls) else none)))

/-- Leftmost match of the marker-anchored pattern in a window's text. -/
def m2Search (t : Str) : Option Str :=
  scanSuffixes (fun cs => if yeniAt cs then m2After (cs.drop 4) else none) t

/-- `takeWhile`/`dropWhile` in one pass (used to keep the block scan
structurally recursive). -/
def splitRun (p : Char → Bool) : Str → (Str × Str)
  | [] => ([], [])
  | c :: rest =>
    if p c then
      let ab := splitRun p rest
      (c :: ab.1, ab.2)
    else ([], c :: rest)

/-- Fuelled scan for `re.findall(r"([0-9][0-9\.\,\s]{2,})", t)`: leftmost,
non-overlapping, each match greedy; on failure the scan advances one
character, on success it resumes after the match. -/
def findNumBlocksGo : ℕ → Str → List Str
  | 0, _ => []
  | _, [] => []
  | fuel + 1, c :: rest =>
    if isDig c then
      let ab := splitRun isNumCls rest
      if 2 ≤ ab.1.length then (c :: ab.1) :: findNumBlocksGo fuel ab.2
      else findNumBlocksGo fuel rest
    else findNumBlocksGo fuel rest

/-- All matches of `[0-9][0-9\.\,\s]{2,}` in a window's text. -/
def findNumBlocks (t : Str) : List Str := findNumBlocksGo t.length t

/-- Candidate filtering (step 4 of the strategy): NBSP→space and strip, drop
all-zero junk, normalize, drop values below the 1000 threshold. -/
def acceptCandidate (c : Str) : Option ℚ :=
  let cClean := pyStrip (c.map (fun ch => if ch = Char.ofNat 160 then ' ' else ch))
  if (cClean != []) && cClean.all (fun ch => ch == '0' || isPyWhite ch || ch == '.' || ch == ',') then
    none
  else
    match turkish_number_to_decimal cClean with
    | none => none
    | some v => if v < 1000 then none else some v

/-- The candidate texts of one window: the marker-anchored capture (when the
pattern matches) followed by every numeric-looking block. -/
def windowCands (t : Str) : List Str :=
  (match m2Search t with
   | some cap => [cap]
   | none => []) ++ findNumBlocks t

/-- The accepted (normalized, filtered) values of one window. -/
def windowAccepted (t : Str) : List ℚ := (windowCands t).filterMap acceptCandidate

/-- `max(parsed)` over the accepted values of one window, when any survive. -/
def windowResult (t : Str) : Option ℚ :=
  match windowAccepted t with
  | [] => none
  | p :: ps => some (ps.foldl max p)

/-- The scan over `re.finditer(r"Cumhuriyet", html, re.IGNORECASE)`: at each
occurrence take a 5000-character window, strip markup, and stop at the first
window with a result.  (The scan here advances one character at a time; this
agrees with `finditer` because `Cumhuriyet` cannot overlap itself.) -/
def nbhdScan : Str → Option ℚ
  | [] => none
  | c :: rest =>
    if cumhuriyetAt (c :: rest) then
      match windowResult (getText ((c :: rest).take 5000)) with
      | some v => some v
      | none => nbhdScan rest
    else nbhdScan rest

/-- `parse_price_neighborhood`. -/
def parse_price_neighborhood (html : Str) : Option ℚ := nbhdScan html

/-- The stripped window texts at every row-label occurrence, in order. -/
def occWindows : Str → List Str
  | [] => []
  | c :: rest =>
    (if cumhuriyetAt (c :: rest) then [getText ((c :: rest).take 5000)] else []) ++ occWindows rest

/-- The accepted value of a window's marker-anchored match, when present. -/
def anchoredValue (t : Str) : Option ℚ :=
  match m2Search t with
  | some cap => acceptCandidate cap
  | none => none

/-! ## Document tree model for the two DOM strategies

The HTML-string-to-tree step is BeautifulSoup's (an external library); the
script's own logic starts from the parsed tree, modelled by `Node`.  The
synthetic root element models the `BeautifulSoup` document object (tag
`[document]`), so every element of the page has a parent chain ending at
the document, exactly as in bs4. -/

inductive Node where
  | elem : String → List (String × Str) → List Node → Node
  | text : Str → Node

/-- Attributes of an element (`tag.attrs`); text nodes have none.  Only
string-valued attributes are modelled (bs4's list-valued attributes such as
`class` fail the `isinstance(val, str)` check in the script and are skipped). -/
def nodeAttrs : Node → List (String × Str)
  | .elem _ a _ => a
  | .text _ => []

/-- Is the node an element with the given tag? -/
def nodeIsTag (tg : String) : Node → Bool
  | .elem t _ _ => t == tg
  | .text _ => false

mutual

/-- All text-node contents under a node, in document order. -/
def nodeTextFrags : Node → List Str
  | .text s => [s]
  | .elem _ _ cs => nodesTextFrags cs

/-- All text-node contents under a forest, in document order. -/
def nodesTextFrags : List Node → List Str
  | [] => []
  | n :: ns => nodeTextFrags n ++ nodesTextFrags ns

end

/-- `tag.get_text(" ", strip=True)`: stripped text fragments, empties
dropped, joined by single spaces. -/
def getTextTree (n : Node) : Str :=
  List.intercalate [' '] (((nodeTextFrags n).map pyStrip).filter (fun s => s != []))

mutual

/-- `tag.find_all(...)`: descendant elements satisfying the tag predicate,
in document order (the node itself excluded). -/
def nodeFindAll (p : String → Bool) : Node → List Node
  | .text _ => []
  | .elem _ _ cs => nodesFindAll p cs

/-- Matching elements of a forest and their descendants, preorder. -/
def nodesFindAll (p : String → Bool) : List Node → List Node
  | [] => []
  | n :: ns =>
    (match n with
     | .elem t _ _ => if p t then [n] else []
     | .text _ => []) ++ nodeFindAll p n ++ nodesFindAll p ns

end

mutual

/-- All text nodes under a node, each with its ancestor chain
(nearest ancestor first), in document order. -/
def nodeTexts (anc : List Node) : Node → List (List Node × Str)
  | .text s => [(anc, s)]
  | .elem t a cs => nodesTexts (Node.elem t a cs :: anc) cs

/-- Text nodes of a forest with ancestor chains, in document order. -/
def nodesTexts (anc : List Node) : List Node → List (List Node × Str)
  | [] => []
  | n :: ns => nodeTexts anc n ++ nodesTexts anc ns

end

/-! ## Structured-Table strategy (`parse_price_via_table`) -/

/-- First column whose header, stripped and uppercased, contains `YEN`. -/
def findYeniIdx (headers : List Str) : Option ℕ :=
  headers.findIdx? (fun h => listContainsSeg "YEN".toList ((pyStrip h).map pyUpperChar))

/-- The `data-*` fallback: first attribute whose string value contains a
digit. -/
def cellAttrFallback (attrs : List (String × Str)) : Option Str :=
  (attrs.find? (fun av => av.2.any isDig)).map (fun av => av.2)

/-- `re.search(r"([0-9][0-9\.\,\s]{1,})", raw)`: leftmost digit followed by
at least one capture-class character, greedy. -/
def cellNumSearch (raw : Str) : Option Str :=
  scanSuffixes (fun cs =>
    match cs with
    | c :: rest =>
      if isDig c && 1 ≤ runLen isNumCls rest then some (c :: rest.takeWhile isNumCls) else none
    | [] => none) raw

/-- Column headers of a table: from the first `thead`'s `th`/`td` cells, or
from the table's first `tr` when that yields nothing. -/
def tableHeaders (table : Node) : List Str :=
  let fromThead :=
    match (nodeFindAll (fun t => t == "thead") table).head? with
    | some thead => (nodeFindAll (fun t => t == "th" || t == "td") thead).map getTextTree
    | none => []
  if fromThead.isEmpty then
    match (nodeFindAll (fun t => t == "tr") table).head? with
    | some tr => (nodeFindAll (fun t => t == "th" || t == "td") tr).map getTextTree
    | none => []
  else fromThead

/-- The raw text of the marker column's cell, falling back to a
digit-bearing attribute value when the cell text is empty. -/
def cellRaw (cell : Node) : Str :=
  if getTextTree cell = [] then
    match cellAttrFallback (nodeAttrs cell) with
    | some v => v
    | none => getTextTree cell
  else getTextTree cell

/-- The numeric fragment extracted from the cell text (`num_txt`): the
regex's capture when it matches, the whole raw text otherwise. -/
def cellNumTxt (cell : Node) : Str :=
  match cellNumSearch (cellRaw cell) with
  | some g => g
  | none => cellRaw cell

/-- Normalize the cell's numeric fragment and accept only values at or
above the 1000 threshold. -/
def cellValue (cell : Node) : Option ℚ :=
  match turkish_number_to_decimal (cellNumTxt cell) with
  | some v => if 1000 ≤ v then some v else none
  | none => none

/-- The `td`/`th` cells of a row. -/
def rowCells (tr : Node) : List Node := nodeFindAll (fun t => t == "td" || t == "th") tr

/-- One data row: require the row-label marker in the row text, guard the
marker column index against the cell count, then evaluate that cell. -/
def rowValue (yeniIdx : ℕ) (tr : Node) : Option ℚ :=
  if foldContains "cumhuriyet".toList (getTextTree tr) then
    if (rowCells tr).isEmpty || (rowCells tr).length ≤ yeniIdx then none
    else
      match (rowCells tr).get? yeniIdx with
      | none => none
      | some cell => cellValue cell
  else none

/-- `table.find("tbody") or table`. -/
def tableBody (table : Node) : Node :=
  match (nodeFindAll (fun t => t == "tbody") table).head? with
  | some tb => tb
  | none => table

/-- One table: headers, marker column, then the first accepted row. -/
def tableValue (table : Node) : Option ℚ :=
  if (tableHeaders table).isEmpty then none
  else
    match findYeniIdx (tableHeaders table) with
    | none => none
    | some yeniIdx =>
      (nodeFindAll (fun t => t == "tr") (tableBody table)).findSome? (rowValue yeniIdx)

/-- `parse_price_via_table`: first accepted value over all tables. -/
def parse_price_via_table (root : Node) : Option ℚ :=
  (nodeFindAll (fun t => t == "table") root).findSome? tableValue

/-! ## Tagged-Text strategy (`parse_price_with_bs4`) -/

/-- Search for `YEN[İI][\s:]*([0-9\.\,\s]+)` in flattened container text. -/
def yeniCapture (t : Str) : Option Str :=
  scanSuffixes (fun cs => if yeniAt cs then capturePart (cs.drop 4) else none) t

/-- One candidate text node: container is the nearest `tr` ancestor or the
immediate parent; search its text, then retry once on the container's own
parent. -/
def tryCand (cand : List Node × Str) : Option ℚ :=
  let anc := cand.1
  if anc.isEmpty then none
  else
    let cIdx : ℕ :=
      match anc.findIdx? (nodeIsTag "tr") with
      | some i => i
      | none => 0
    match anc.get? cIdx with
    | none => none
    | some container =>
      let v1 :=
        match yeniCapture (getTextTree container) with
        | some g => turkish_number_to_decimal g
        | none => none
      match v1 with
      | some v => some v
      | none =>
        match anc.get? (cIdx + 1) with
        | none => none
        | some par =>
          match yeniCapture (getTextTree par) with
          | some g2 => turkish_number_to_decimal g2
          | none => none

/-- `parse_price_with_bs4`: every text node containing the row-label marker,
first candidate that yields a normalized value. -/
def parse_price_with_bs4 (root : Node) : Option ℚ :=
  ((nodeTexts [] root).filter (fun c => foldContains "cumhuriyet".toList c.2)).findSome? tryCand

/-- A concrete document whose `tr` row carries a sub-threshold value. -/
def smallPriceDoc : Node :=
  Node.elem "[document]" [] [Node.elem "tr" [] [Node.text "Cumhuriyet YENI 500".toList]]

/-- A concrete well-formed price table. -/
def sampleTableDoc : Node :=
  Node.elem "[document]" []
    [Node.elem "table" []
      [Node.elem "tr" []
        [Node.elem "th" [] [Node.text "Ad".toList],
         Node.elem "th" [] [Node.text "YENİ".toList]],
       Node.elem "tr" []
        [Node.elem "td" [] [Node.text "Cumhuriyet".toList],
         Node.elem "td" [] [Node.text "29.650,00".toList]]]]

/-- Content whose first window holds a marker-anchored value (2000) and a
larger unrelated number (9999). -/
def nbhdEx : Str := "Cumhuriyet YENI 2.000 deneme 9.999".toList

/-- Content whose first regex match captures an unparsable fragment while a
later occurrence carries a parseable value. -/
def regexAbortEx : Str := "Cumhuriyet YENI 1,2,3 ve Cumhuriyet YENI 2.000 TL".toList

/-- The remainder of `regexAbortEx` from its second row-label occurrence. -/
def regexAbortExTail : Str := "Cumhuriyet YENI 2.000 TL".toList

/-- Content with no row-label marker at all. -/
def noMarkerEx : Str := "altin fiyatlari guncel kur".toList

/-! ## Helper lemmas -/

theorem exists_of_findSome?_some {α β : Type} {f : α → Option β} :
    ∀ {l : List α} {v : β}, l.findSome? f = some v → ∃ a, a ∈ l ∧ f a = some v := by
  intro l
  induction l with
  | nil => intro v h; simp [List.findSome?_nil] at h
  | cons a t ih =>
    intro v h
    rw [List.findSome?_cons] at h
    cases hfa : f a with
    | none =>
      rw [hfa] at h
      obtain ⟨x, hx, hfx⟩ := ih h
      exact ⟨x, List.mem_cons_of_mem a hx, hfx⟩
    | some w =>
      rw [hfa] at h
      cases h
      exact ⟨a, List.mem_cons_self a t, hfa⟩

theorem foldl_max_mem (p : ℚ) (ps : List ℚ) : ps.foldl max p = p ∨ ps.foldl max p ∈ ps := by
  induction ps generalizing p with
  | nil => exact Or.inl rfl
  | cons q qs ih =>
    rw [List.foldl_cons]
    rcases ih (max p q) with h | h
    · rcases max_choice p q with h2 | h2
      · exact Or.inl (h.trans h2)
      · rw [h, h2]
        exact Or.inr (List.mem_cons_self q qs)
    · exact Or.inr (List.mem_cons_of_mem q h)

theorem foldl_max_le (p : ℚ) (ps : List ℚ) : ∀ b, (b = p ∨ b ∈ ps) → b ≤ ps.foldl max p := by
  induction ps generalizing p with
  | nil =>
    intro b hb
    rcases hb with rfl | h
    · exact le_refl b
    · simp at h
  | cons q qs ih =>
    intro b hb
    rw [List.foldl_cons]
    rcases hb with rfl | hb
    · exact le_trans (le_max_left b q) (ih (max b q) _ (Or.inl rfl))
    · rcases List.mem_cons.1 hb with rfl | h
      · exact le_trans (le_max_right p b) (ih (max p b) _ (Or.inl rfl))
      · exact ih (max p q) b (Or.inr h)

theorem acceptCandidate_ge {c : Str} {v : ℚ} (h : acceptCandidate c = some v) : 1000 ≤ v := by
  simp only [acceptCandidate] at h
  split at h
  · exact absurd h (by simp)
  · split at h
    · exact absurd h (by simp)
    · split at h
      · exact absurd h (by simp)
      · cases h
        exact le_of_not_lt (by assumption)

theorem windowAccepted_ge {t : Str} {v : ℚ} (h : v ∈ windowAccepted t) : 1000 ≤ v := by
  obtain ⟨c, _, hc⟩ := List.mem_filterMap.1 h
  exact acceptCandidate_ge hc

theorem maxOfList_spec {v : ℚ} :
    ∀ l : List ℚ,
      (match l with
       | ([] : List ℚ) => (none : Option ℚ)
       | p :: ps => some (ps.foldl max p)) = some v →
      v ∈ l ∧ ∀ b ∈ l, b ≤ v := by
  intro l hl
  cases l with
  | nil => simp at hl
  | cons p ps =>
    simp only [Option.some.injEq] at hl
    subst hl
    constructor
    · rcases foldl_max_mem p ps with h2 | h2
      · rw [h2]
        exact List.mem_cons_self p ps
      · exact List.mem_cons_of_mem p h2
    · intro b hb
      rcases List.mem_cons.1 hb with rfl | h2
      · exact foldl_max_le b ps b (Or.inl rfl)
      · exact foldl_max_le p ps b (Or.inr h2)

theorem windowResult_mem_max {t : Str} {v : ℚ} (h : windowResult t = some v) :
    v ∈ windowAccepted t ∧ ∀ b ∈ windowAccepted t, b ≤ v :=
  maxOfList_spec (windowAccepted t) h

theorem windowResult_ge {t : Str} {v : ℚ} (h : windowResult t = some v) : 1000 ≤ v :=
  windowAccepted_ge (windowResult_mem_max h).1

theorem nbhdScan_ge : ∀ {cs : Str} {v : ℚ}, nbhdScan cs = some v → 1000 ≤ v := by
  intro cs
  induction cs with
  | nil => intro v h; simp [nbhdScan] at h
  | cons c rest ih =>
    intro v h
    rw [nbhdScan] at h
    split at h
    · split at h
      · cases h; exact windowResult_ge (by assumption)
      · exact ih h
    · exact ih h

theorem cellValue_ge {cell : Node} {v : ℚ} (h : cellValue cell = some v) : 1000 ≤ v := by
  unfold cellValue at h
  split at h
  · split at h
    · cases h; assumption
    · exact absurd h (by simp)
  · exact absurd h (by simp)

theorem rowValue_ge {yeniIdx : ℕ} {tr : Node} {v : ℚ} (h : rowValue yeniIdx tr = some v) :
    1000 ≤ v := by
  unfold rowValue at h
  split at h
  · split at h
    · exact absurd h (by simp)
    · split at h
      · exact absurd h (by simp)
      · exact cellValue_ge h
  · exact absurd h (by simp)

theorem tableValue_ge {table : Node} {v : ℚ} (h : tableValue table = some v) : 1000 ≤ v := by
  unfold tableValue at h
  split at h
  · exact absurd h (by simp)
  · split at h
    · exact absurd h (by simp)
    · obtain ⟨tr, _, htr⟩ := exists_of_findSome?_some h
      exact rowValue_ge htr

theorem nbhdScan_eq_occWindows : ∀ cs : Str, nbhdScan cs = (occWindows cs).findSome? windowResult := by
  intro cs
  induction cs with
  | nil => rfl
  | cons c rest ih =>
    rw [nbhdScan, occWindows]
    split
    · rw [List.singleton_append, List.findSome?_cons]
      cases hw : windowResult (getText ((c :: rest).take 5000)) with
      | some v => rfl
      | none => exact ih
    · rw [List.nil_append]
      exact ih

theorem isPrefixOf_self_append (l b : Str) : l.isPrefixOf (l ++ b) = true := by
  induction l with
  | nil => simp [List.isPrefixOf]
  | cons c r ih => simp [List.isPrefixOf, ih]

theorem listContainsSeg_self_append (l b : Str) : listContainsSeg l (l ++ b) = true := by
  cases l with
  | nil =>
    cases b with
    | nil => rfl
    | cons c r => simp [listContainsSeg, List.isPrefixOf]
  | cons x xs =>
    rw [List.cons_append, listContainsSeg]
    rw [show ((x :: xs).isPrefixOf (x :: (xs ++ b))) = true from isPrefixOf_self_append (x :: xs) b]
    rfl

theorem listContainsSeg_append_right (l x y : Str) (h : listContainsSeg l y = true) :
    listContainsSeg l (x ++ y) = true := by
  induction x with
  | nil => simpa using h
  | cons c r ih => simp [listContainsSeg, ih]

theorem roundHalfEven_intCast (k : ℤ) : roundHalfEven ((k : ℤ) : ℚ) = k := by
  unfold roundHalfEven
  rw [Int.floor_intCast, Rat.num_intCast, Rat.den_intCast]
  norm_num


/-! ## Claims -/

/-- C1 counterexample: the claim says every strategy that returns a value
returns at least 1000, but on `"Cumhuriyet YENI 500"` both the Regex-Window
strategy and the Tagged-Text strategy return 500. -/
theorem C1_counterexample :
    parse_price_with_regex "Cumhuriyet YENI 500".toList = some 500 ∧
    parse_price_with_bs4 smallPriceDoc = some 500 ∧
    (500 : ℚ) < 1000 :=
  ⟨by decide, by decide, by norm_num⟩

/-- C1 amended: only the Structured-Table and Neighborhood-Scan strategies
enforce the plausibility threshold — whenever either of them returns a
value, that value is at least 1000 (the Tagged-Text and Regex-Window
strategies do not check the threshold). -/
theorem C1_threshold_amended :
    (∀ (root : Node) (v : ℚ), parse_price_via_table root = some v → 1000 ≤ v) ∧
    (∀ (html : Str) (v : ℚ), parse_price_neighborhood html = some v → 1000 ≤ v) := by
  constructor
  · intro root v h
    unfold parse_price_via_table at h
    obtain ⟨tb, _, htb⟩ := exists_of_findSome?_some h
    exact tableValue_ge htb
  · intro html v h
    exact nbhdScan_ge h

/-- C1 amended, witness: the table strategy accepts the sample table's
29650, which the amended theorem bounds below by 1000. -/
theorem C1_threshold_amended_witness :
    parse_price_via_table sampleTableDoc = some 29650 ∧ (1000 : ℚ) ≤ 29650 :=
  ⟨by decide, C1_threshold_amended.1 sampleTableDoc 29650 (by decide)⟩

/-- C2 counterexample: in the first (only) window of `nbhdEx` the
marker-anchored match normalizes to the accepted value 2000, yet the
strategy returns 9999, the window maximum — the marker-anchored match is
not preferred. -/
theorem C2_counterexample :
    anchoredValue (getText (nbhdEx.take 5000)) = some 2000 ∧
    parse_price_neighborhood nbhdEx = some 9999 ∧
    (2000 : ℚ) ≠ 9999 :=
  ⟨by decide, by decide, by norm_num⟩

/-- C2 amended: the strategy returns, for the first marker window with any
accepted value, the maximum of all accepted candidates of that window; the
marker-anchored match is merely one more candidate, so it is returned only
when it happens to be that maximum. -/
theorem C2_window_max_amended :
    (∀ html : Str, parse_price_neighborhood html = (occWindows html).findSome? windowResult) ∧
    (∀ (t : Str) (v : ℚ), windowResult t = some v →
        v ∈ windowAccepted t ∧ ∀ b ∈ windowAccepted t, b ≤ v) :=
  ⟨nbhdScan_eq_occWindows, fun _ _ h => windowResult_mem_max h⟩

/-- C2 amended, witness: on the counterexample window the result 9999 is an
accepted candidate and bounds every accepted candidate. -/
theorem C2_window_max_amended_witness :
    windowResult (getText (nbhdEx.take 5000)) = some 9999 ∧
    (9999 : ℚ) ∈ windowAccepted (getText (nbhdEx.take 5000)) :=
  ⟨by decide, (C2_window_max_amended.2 (getText (nbhdEx.take 5000)) 9999 (by decide)).1⟩

/-- C3: the orchestrator tries Structured-Table, Tagged-Text, Regex-Window,
Neighborhood-Scan in that fixed order, invokes no strategy after the first
one that returns a value, and returns NotFound exactly when all four
return NotFound. -/
theorem C3_orchestrator (t b rx nb : Option ℚ) :
    ((extract_trace t b rx nb).1 = extract_price t b rx nb) ∧
    (extract_price t b rx nb = none ↔ (t = none ∧ b = none ∧ rx = none ∧ nb = none)) ∧
    (∀ v, t = some v → extract_trace t b rx nb = (some v, [Strat.table])) ∧
    (∀ v, t = none → b = some v →
        extract_trace t b rx nb = (some v, [Strat.table, Strat.bs4])) ∧
    (∀ v, t = none → b = none → rx = some v →
        extract_trace t b rx nb = (some v, [Strat.table, Strat.bs4, Strat.regex])) ∧
    (t = none → b = none → rx = none →
        extract_trace t b rx nb =
          (nb, [Strat.table, Strat.bs4, Strat.regex, Strat.neighborhood])) := by
  cases t <;> cases b <;> cases rx <;> cases nb <;>
    simp [extract_trace, extract_price]

/-- C3 witness: with the table strategy succeeding at 29650, only the table
strategy is invoked. -/
theorem C3_orchestrator_witness :
    extract_trace (some 29650) none none none = (some 29650, [Strat.table]) :=
  (C3_orchestrator (some 29650) none none none).2.2.1 29650 rfl

/-- C4: the normalizer factors exactly through the spec's ordered cleaning
steps followed by exact decimal parsing, and maps the spec's examples
`"29.650,00"`, `"1.234"`, `"500"` to 29650, 1234, 500 (it is a pure
function, hence deterministic). -/
theorem C4_normalizer :
    (∀ s : Str, turkish_number_to_decimal s = pyDecimal (cleanSpec s)) ∧
    turkish_number_to_decimal "29.650,00".toList = some 29650 ∧
    turkish_number_to_decimal "1.234".toList = some 1234 ∧
    turkish_number_to_decimal "500".toList = some 500 ∧
    turkish_number_to_decimal "abc".toList = none :=
  ⟨fun _ => rfl, by decide, by decide, by decide, by decide⟩

/-- C5 counterexample: on `regexAbortEx` the Regex-Window strategy returns
NotFound because its first match's capture (`"1,2,3 "`) fails to normalize,
even though the remaining content (from the second occurrence on) yields
2000 under the same pattern; the Neighborhood-Scan strategy on the same
content does continue past the unparsable candidate and returns 2000. -/
theorem C5_counterexample :
    parse_price_with_regex regexAbortEx = none ∧
    regexAbortEx = "Cumhuriyet YENI 1,2,3 ve ".toList ++ regexAbortExTail ∧
    parse_price_with_regex regexAbortExTail = some 2000 ∧
    parse_price_neighborhood regexAbortEx = some 2000 :=
  ⟨by decide, by decide, by decide, by decide⟩

/-- C5 amended: the Regex-Window strategy inspects only the first match of
its pattern in the content and returns NotFound as soon as that match's
capture fails to normalize — it never continues to later candidates (the
tree-based and neighborhood strategies do treat a failed normalization as a
non-match and continue). -/
theorem C5_regex_first_match_amended (html g : Str)
    (h1 : fallbackSearch html = some g)
    (h2 : turkish_number_to_decimal g = none) :
    parse_price_with_regex html = none := by
  unfold parse_price_with_regex
  rw [h1]
  exact h2

/-- C5 amended, witness: the abort behavior at `regexAbortEx`. -/
theorem C5_regex_first_match_amended_witness :
    fallbackSearch regexAbortEx = some "1,2,3 ".toList ∧
    turkish_number_to_decimal "1,2,3 ".toList = none ∧
    parse_price_with_regex regexAbortEx = none :=
  ⟨by decide, by decide, C5_regex_first_match_amended regexAbortEx "1,2,3 ".toList (by decide) (by decide)⟩

/-- C6: with previous price 29650 and extracted value 29800, exactly one
notification is handed to the notifier, its text contains both "29.650"
and "29.800", and 29800 is persisted (for any timestamp strings). -/
theorem C6_changed_path (dt off : Str) :
    mainModel true (some 29800) none none none (some 29650) dt off =
      { notifs := [build_message 29650 29800 dt off], write := some 29800, exitCode := 0 } ∧
    listContainsSeg "29.650".toList (build_message 29650 29800 dt off) = true ∧
    listContainsSeg "29.800".toList (build_message 29650 29800 dt off) = true := by
  have hp : ((roundHalfEven (29800 : ℚ) : ℤ) : ℚ) = (29800 : ℚ) := by decide
  have hfo : format_tl (29650 : ℚ) = "29.650".toList := by decide
  have hfn : format_tl (29800 : ℚ) = "29.800".toList := by decide
  refine ⟨?_, ?_, ?_⟩
  · simp only [mainModel, extract_price, changeDetect, changeDetectRounded, hp, if_true]
    rw [if_pos (by norm_num : (29800 : ℚ) ≠ 29650)]
  · simp only [build_message, hfo, List.append_assoc]
    exact listContainsSeg_append_right _ _ _ (listContainsSeg_self_append _ _)
  · simp only [build_message, hfn, List.append_assoc]
    exact listContainsSeg_append_right _ _ _
      (listContainsSeg_append_right _ _ _
        (listContainsSeg_append_right _ _ _ (listContainsSeg_self_append _ _)))

/-- C7: on a run with no previous record and a successful extraction, the
extracted value is persisted (rounded to a whole integer, hence exactly V
for a whole-valued extraction V) and no notification is sent. -/
theorem C7_first_run (q : ℚ) (V : ℤ) (dt off : Str) :
    mainModel true (some q) none none none none dt off =
      { notifs := [], write := some ((roundHalfEven q : ℤ) : ℚ), exitCode := 0 } ∧
    mainModel true (some ((V : ℤ) : ℚ)) none none none none dt off =
      { notifs := [], write := some ((V : ℤ) : ℚ), exitCode := 0 } := by
  constructor
  · simp only [mainModel, extract_price, changeDetect, changeDetectRounded, if_true]
    rw [roundHalfEven_intCast]
  · simp only [mainModel, extract_price, changeDetect, changeDetectRounded, if_true]
    rw [roundHalfEven_intCast, roundHalfEven_intCast]

/-- C8: when the stored price equals the extracted value exactly, nothing
is written and no notification is sent. -/
theorem C8_unchanged (V : ℤ) (dt off : Str) :
    mainModel true (some ((V : ℤ) : ℚ)) none none none (some ((V : ℤ) : ℚ)) dt off =
      { notifs := [], write := none, exitCode := 0 } := by
  simp only [mainModel, extract_price, changeDetect, changeDetectRounded,
    roundHalfEven_intCast, if_true]
  rw [if_neg (by simp : ¬((V : ℤ) : ℚ) ≠ ((V : ℤ) : ℚ))]

/-- C9: a failed fetch and a failed extraction (all four strategies
NotFound) both end the run with no write, no notification and exit code 0;
the exit code is 0 on every path; and on content without the row-label
marker the two text strategies indeed return NotFound. -/
theorem C9_failure_paths :
    (∀ (t b rx nb lastQ : Option ℚ) (dt off : Str),
        mainModel false t b rx nb lastQ dt off = { notifs := [], write := none, exitCode := 0 }) ∧
    (∀ (lastQ : Option ℚ) (dt off : Str),
        mainModel true none none none none lastQ dt off =
          { notifs := [], write := none, exitCode := 0 }) ∧
    (∀ (fetched : Bool) (t b rx nb lastQ : Option ℚ) (dt off : Str),
        (mainModel fetched t b rx nb lastQ dt off).exitCode = 0) ∧
    parse_price_with_regex noMarkerEx = none ∧
    parse_price_neighborhood noMarkerEx = none := by
  refine ⟨?_, ?_, ?_, by decide, by decide⟩
  · intro t b rx nb lastQ dt off
    rfl
  · intro lastQ dt off
    rfl
  · intro fetched t b rx nb lastQ dt off
    cases fetched
    · rfl
    · simp only [mainModel, if_true]
      cases hext : extract_price t b rx nb with
      | none => rfl
      | some p =>
        cases lastQ with
        | none => rfl
        | some l =>
          simp only [changeDetect, changeDetectRounded]
          split <;> rfl

/-- C10: every value the change detector writes is a whole integer (the
price is quantized before persistence), and whenever the extracted value
rounds (half-even) to the stored integer V the run is classified Unchanged
— no write, no notification — even if the raw value differs from V. -/
theorem C10_rounding (q : ℚ) (lastQ : Option ℚ) (dt off : Str) :
    (∀ w : ℚ, (changeDetect q lastQ dt off).write = some w → ∃ k : ℤ, w = (k : ℚ)) ∧
    (∀ V : ℤ, roundHalfEven q = V →
        changeDetect q (some ((V : ℤ) : ℚ)) dt off =
          { notifs := [], write := none, exitCode := 0 }) := by
  constructor
  · intro w hw
    cases lastQ with
    | none =>
      simp only [changeDetect, changeDetectRounded, Option.some.injEq] at hw
      exact ⟨_, hw.symm⟩
    | some l =>
      simp only [changeDetect, changeDetectRounded] at hw
      split at hw
      · simp only [Option.some.injEq] at hw
        exact ⟨_, hw.symm⟩
      · simp at hw
  · intro V hV
    simp only [changeDetect, changeDetectRounded]
    rw [hV]
    rw [if_neg (by simp : ¬((V : ℤ) : ℚ) ≠ ((V : ℤ) : ℚ))]

/-- C10 witness: 29650.5 rounds to 29650, differs from it as a rational,
and against a stored 29650 the run is Unchanged. -/
theorem C10_rounding_witness :
    roundHalfEven (mkRat 59301 2) = 29650 ∧
    mkRat 59301 2 ≠ ((29650 : ℤ) : ℚ) ∧
    changeDetect (mkRat 59301 2) (some ((29650 : ℤ) : ℚ)) [] [] =
      { notifs := [], write := none, exitCode := 0 } :=
  ⟨by decide, by decide,
    (C10_rounding (mkRat 59301 2) (some ((29650 : ℤ) : ℚ)) [] []).2 29650 (by decide)⟩
